import Mathlib

/-!
Verification of the Fishy repository: a change-detection and extraction
pipeline for a periodically republished stocking-report document.

The development shallowly embeds the two Python source files:

* `fishyfileParsePDFtoXLS.py` — one-shot bulk extraction: a regex-driven
  line scanner with a stateful county grouping key, followed by a grouped
  spreadsheet export.
* `fishcomparentxtANDparseAWSfunction.py` — the monitoring Lambda: proxy
  rotation with bounded retries, hash-based change detection against an S3
  store, table extraction, and per-record SMS dispatch.

External collaborators (HTTP, pdfplumber, hashlib, S3, Twilio) are modelled
as injected functions; the Python regular expressions are modelled by an
explicit backtracking matcher with Python's greedy leftmost semantics.
-/

/-! ### Character classes used by the Python regexes (ASCII range)

`\d`, `\w`, `\s`, `[A-Za-z\s]` restricted to the ASCII range, which is the
range the stocking reports use.
-/

def isDigitCh (c : Char) : Bool := '0' ≤ c && c ≤ '9'

def isAsciiAlpha (c : Char) : Bool := ('A' ≤ c && c ≤ 'Z') || ('a' ≤ c && c ≤ 'z')

/-- Python `\s` on ASCII text: space, tab, newline, carriage return,
vertical tab, form feed. -/
def isSpaceCh (c : Char) : Bool :=
  c = ' ' || c = '\t' || c = '\n' || c = '\r' || c = Char.ofNat 11 || c = Char.ofNat 12

/-- Python `\w` on ASCII text: letters, digits, underscore. -/
def isWordCh (c : Char) : Bool := isAsciiAlpha c || isDigitCh c || c = '_'

/-- The character class `[A-Za-z\s]` of the record-line pattern. -/
def isAlphaSpaceCh (c : Char) : Bool := isAsciiAlpha c || isSpaceCh c

/-! ### Python string helpers -/

/-- Python `str.upper` on one ASCII character. -/
def pyUpperChar (c : Char) : Char :=
  if 'a' ≤ c ∧ c ≤ 'z' then Char.ofNat (c.toNat - 32) else c

/-- Python `str.upper` (ASCII range). -/
def pyUpper (s : String) : String := ⟨s.data.map pyUpperChar⟩

/-- Python `str.strip`: remove leading and trailing whitespace. -/
def pyStrip (s : String) : String :=
  ⟨((s.data.dropWhile isSpaceCh).reverse.dropWhile isSpaceCh).reverse⟩

/-- Python `str.split` on a single-character separator: `text.split(sep)`. -/
def pySplitChar (sep : Char) : List Char → List (List Char)
  | [] => [[]]
  | c :: rest =>
    let r := pySplitChar sep rest
    if c = sep then
      [] :: r
    else
      match r with
      | [] => [[c]]
      | line :: more => (c :: line) :: more

/-- `text.split('\n')` as used on each page's extracted text. -/
def pySplitLines (s : String) : List String :=
  (pySplitChar '\n' s.data).map (fun l => ⟨l⟩)

/-! ### Backtracking regex matcher

The two patterns of `fishyfileParsePDFtoXLS.py` are embedded with an
explicit backtracking matcher in continuation style.  A greedy bounded
repetition `p{lo,hi}` tries the longest candidate first and hands the
consumed prefix and the remaining input to its continuation, falling back
to shorter candidates when the continuation fails — exactly Python's
backtracking priority order for greedy quantifiers.
-/

/-- Try a repetition of the character class `p`, longest candidate first.
`repTry p lo cs k n` tries consuming `n, n-1, …, 1` characters (never 0),
skipping counts below `lo`, above the input length, or whose prefix leaves
the class. -/
def repTry (p : Char → Bool) (lo : Nat) (cs : List Char)
    (k : List Char → List Char → Option α) : Nat → Option α
  | 0 => none
  | n + 1 =>
    let attempt :=
      if lo ≤ n + 1 && n + 1 ≤ cs.length && (cs.take (n + 1)).all p then
        k (cs.take (n + 1)) (cs.drop (n + 1))
      else none
    match attempt with
    | some v => some v
    | none => repTry p lo cs k n

/-- Greedy `p+`: longest run first. -/
def plusGreedy (p : Char → Bool) (cs : List Char)
    (k : List Char → List Char → Option α) : Option α :=
  repTry p 1 cs k (cs.takeWhile p).length

/-- Greedy `p{1,2}`. -/
def rep12 (p : Char → Bool) (cs : List Char)
    (k : List Char → List Char → Option α) : Option α :=
  repTry p 1 cs k (min 2 cs.length)

/-- Exact `p{4}`. -/
def rep4 (p : Char → Bool) (cs : List Char)
    (k : List Char → List Char → Option α) : Option α :=
  repTry p 4 cs k (min 4 cs.length)

/-- A literal character. -/
def litChar (ch : Char) (cs : List Char) (k : List Char → Option α) : Option α :=
  match cs with
  | c :: rest => if c = ch then k rest else none
  | [] => none

/-- A literal character sequence. -/
def litSeq : List Char → List Char → (List Char → Option α) → Option α
  | [], cs, k => k cs
  | l :: ls, c :: cs, k => if c = l then litSeq ls cs k else none
  | _ :: _, [], _ => none

/-- Greedy `p?`: try one character of the class first, then the empty match. -/
def optChar (p : Char → Bool) (cs : List Char)
    (k : List Char → List Char → Option α) : Option α :=
  match cs with
  | c :: rest =>
    if p c then
      match k [c] rest with
      | some v => some v
      | none => k [] (c :: rest)
    else k [] (c :: rest)
  | [] => k [] []

/-! ### `fishyfileParsePDFtoXLS.py` — line-strategy extraction -/

/-- The optional banner `(?:REPORT\s+)?` of the county pattern (greedy:
the bannered alternative is preferred). -/
def optReport (cs : List Char) (k : List Char → Option α) : Option α :=
  match litSeq "REPORT".data cs (fun r1 => plusGreedy isSpaceCh r1 (fun _ r2 => k r2)) with
  | some v => some v
  | none => k cs

/-- One anchored attempt of the county-header pattern
`(?:REPORT\s+)?(\w+\s?\w+)\s+County`; on success returns the group-1
capture and the input remaining after the whole match. -/
def matchCountyAt (cs : List Char) : Option (List Char × List Char) :=
  optReport cs (fun cs1 =>
    plusGreedy isWordCh cs1 (fun w1 r1 =>
      optChar isSpaceCh r1 (fun sp r2 =>
        plusGreedy isWordCh r2 (fun w2 r3 =>
          plusGreedy isSpaceCh r3 (fun _ r4 =>
            litSeq "County".data r4 (fun r5 =>
              some (w1 ++ sp ++ w2, r5)))))))

/-- Worker for `re.findall`: scan left to right, resuming after each
non-overlapping match, advancing one character after a failed position.
The fuel is the input length; every match consumes at least the six
characters of the literal `County`, so the fuel never runs out first. -/
def findallAux : Nat → List Char → List String
  | 0, _ => []
  | _ + 1, [] => []
  | fuel + 1, c :: rest =>
    match matchCountyAt (c :: rest) with
    | some (cap, r) => (⟨cap⟩ : String) :: findallAux fuel r
    | none => findallAux fuel rest

/-- `re.findall(r'(?:REPORT\s+)?(\w+\s?\w+)\s+County', text)`. -/
def findallCounty (cs : List Char) : List String := findallAux cs.length cs

/-- One anchored attempt (`re.match`) of the record-line pattern
`(\d{1,2}/\d{1,2}/\d{4})\s+([A-Za-z\s]+)\s+([A-Za-z\s]+)\s+([A-Za-z\s]+)\s+(\d+)\s+(\d+)`;
on success returns the six captures (date, water, city/town, species,
quantity, size). -/
def matchRecordLine (cs : List Char) :
    Option (String × String × String × String × String × String) :=
  rep12 isDigitCh cs (fun d1 r1 =>
  litChar '/' r1 (fun r2 =>
  rep12 isDigitCh r2 (fun d2 r3 =>
  litChar '/' r3 (fun r4 =>
  rep4 isDigitCh r4 (fun y r5 =>
  plusGreedy isSpaceCh r5 (fun _ r6 =>
  plusGreedy isAlphaSpaceCh r6 (fun g2 r7 =>
  plusGreedy isSpaceCh r7 (fun _ r8 =>
  plusGreedy isAlphaSpaceCh r8 (fun g3 r9 =>
  plusGreedy isSpaceCh r9 (fun _ r10 =>
  plusGreedy isAlphaSpaceCh r10 (fun g4 r11 =>
  plusGreedy isSpaceCh r11 (fun _ r12 =>
  plusGreedy isDigitCh r12 (fun g5 r13 =>
  plusGreedy isSpaceCh r13 (fun _ r14 =>
  plusGreedy isDigitCh r14 (fun g6 _ =>
  some (⟨d1 ++ '/' :: d2 ++ '/' :: y⟩, ⟨g2⟩, ⟨g3⟩, ⟨g4⟩, ⟨g5⟩, ⟨g6⟩))))))))))))))))

/-- One row of `all_data`:
`[current_county, date, water, city_town, species, quantity, size]`. -/
structure StockRecord where
  county : String
  date : String
  water : String
  city_town : String
  species : String
  qty : String
  size : String
deriving Repr, DecidableEq

/-- The body of the inner `for line in lines` loop: a matching line is
appended to the accumulator only when `current_county` is truthy (Python
truthiness: neither `None` nor the empty string). -/
def processLine (cc : Option String) (acc : List StockRecord) (line : String) :
    List StockRecord :=
  match matchRecordLine line.data with
  | some (d, w, ct, sp, q, sz) =>
    match cc with
    | some county =>
      if county.isEmpty then acc else acc ++ [⟨county, d, w, ct, sp, q, sz⟩]
    | none => acc
  | none => acc

/-- One iteration of the page loop: first the county headers of the whole
page text are scanned (the last match, if any, supersedes the running
key), then every line of the page is processed with that key. -/
def processPage (st : Option String × List StockRecord) (text : String) :
    Option String × List StockRecord :=
  let county_matches := findallCounty text.data
  let cc :=
    match county_matches.getLast? with
    | some m => some m
    | none => st.1
  (cc, (pySplitLines text).foldl (processLine cc) st.2)

/-- The module-level extraction loop of `fishyfileParsePDFtoXLS.py`,
started with `current_county = None` and `all_data = []`. -/
def extract_all_data (pages : List String) : List StockRecord :=
  (pages.foldl processPage (none, [])).2

/-! ### `fishyfileParsePDFtoXLS.py` — grouped export -/

/-- Python slice `county[:31]`: sheet names are at most 31 characters. -/
def truncate31 (s : String) : String := ⟨s.data.take 31⟩

/-- Python string comparison: lexicographic by code point. -/
def lexLe (u v : List Char) : Bool :=
  match u, v with
  | [], _ => true
  | _ :: _, [] => false
  | x :: xs, y :: ys => if x = y then lexLe xs ys else decide (x < y)

/-- Insert into a sorted list of strings. -/
def insertStr (s : String) : List String → List String
  | [] => [s]
  | t :: ts => if lexLe s.data t.data then s :: t :: ts else t :: insertStr s ts

/-- Sort strings ascending (pandas `groupby` sorts group keys). -/
def sortStrings : List String → List String
  | [] => []
  | s :: ss => insertStr s (sortStrings ss)

/-- The export block: the `if not all_data` guard, the `df.empty` guard,
and `df.groupby("County")` emitting one sheet per distinct county, named
by the county truncated to 31 characters, rows in document order. -/
def export_sheets (all_data : List StockRecord) :
    Except String (List (String × List StockRecord)) :=
  if all_data.isEmpty then
    Except.error "No data extracted from the PDF."
  else if all_data.isEmpty then
    Except.error "No valid data to write to Excel."
  else
    let keys := sortStrings ((all_data.map (fun r => r.county)).dedup)
    Except.ok (keys.map (fun k => (truncate31 k, all_data.filter (fun r => r.county = k))))

/-! ### `fishcomparentxtANDparseAWSfunction.py` — data model

The raw PDF bytes, the HTTP response of `get_pdf_with_proxy`, and the
structures pdfplumber hands back: `page.extract_tables()` returns the list
of tables found on a page; a table is a list of rows; a row is a list of
cell strings.
-/

/-- Raw byte content of a fetched document. -/
abbrev Bytes := List Nat

/-- A row of an extracted table: the cell strings. -/
abbrev TableRow := List String

/-- One extracted table: its rows. -/
abbrev Table := List TableRow

/-- What `page.extract_tables()` yields for one page: a list of tables. -/
abbrev PageTables := List Table

/-- The `requests` response surfaced by `get_pdf_with_proxy`. -/
structure Response where
  status_code : Nat
  content : Bytes
deriving Repr, DecidableEq

/-- One dictionary appended by `parse_pdf`.  The loop
`for row in page.extract_tables()` binds `row` to a whole table, so each
field holds `row[i]`, which is a table row (a list of cells), not a cell. -/
structure PdfRecord where
  date : TableRow
  water : TableRow
  city_town : TableRow
  species : TableRow
  qty : TableRow
  size : TableRow
deriving Repr, DecidableEq

/-- `parse_pdf`: loop over the pages; for each page loop over
`table = page.extract_tables()`; the guard `len(row) >= 6` and the
indexing `row[0] … row[5]` are rendered by the six-element pattern. -/
def parse_pdf (pages : List PageTables) : List PdfRecord :=
  pages.foldl (fun acc table =>
    table.foldl (fun acc2 row =>
      match row with
      | d :: w :: ct :: sp :: q :: sz :: _ => acc2 ++ [⟨d, w, ct, sp, q, sz⟩]
      | _ => acc2) acc) []

/-! ### `fishcomparentxtANDparseAWSfunction.py` — the Lambda handler

The handler's external effects are instrumented as an event trace: every
proxied fetch attempt, every S3 delete/put of the hash file, the
`parse_pdf` call, and every SMS send attempt, in program order.
-/

/-- One observable side effect of a handler run, in program order. -/
inductive Ev
  | fetchAttempt (proxyIdx attempt : Nat) (success : Bool)
  | storeDelete (ok : Bool)
  | storePut (ok : Bool)
  | extractRun
  | smsSend (entryIdx : Nat) (ok : Bool)
deriving Repr, DecidableEq

/-- The handler's terminal states: the early return when the expected-hash
fetch fails (line 88), the no-change return (line 159), the return after a
failed S3 update (line 125), the return after the SMS loop (line 155), and
the all-proxies-failed `statusCode: 500` result (lines 170-173). -/
inductive Outcome
  | hashFetchError
  | noChange
  | storeError
  | notified
  | exhausted
deriving Repr, DecidableEq

/-- The injected external collaborators: the per-(proxy, attempt) result of
`get_pdf_with_proxy` (`none` models a raised `RequestException`), the
SHA-256 hex digest, pdfplumber's table extraction, the S3 delete/put
outcomes, and the per-entry Twilio send outcome. -/
structure Env where
  fetchPdf : Nat → Nat → Option Response
  sha256hex : Bytes → String
  pdfPages : Bytes → List PageTables
  deleteOk : Bool
  putOk : Bool
  sendOk : Nat → Bool

/-- The success test `response and response.status_code == 200`. -/
def isSuccess : Option Response → Bool
  | some r => r.status_code == 200
  | none => false

/-- The inner retry loop `for attempt in range(5)`: stop on the first
successful attempt, otherwise log the failure and move to the next
attempt. -/
def attemptFetch (env : Env) (pIdx : Nat) : List Nat → List Ev × Option Response
  | [] => ([], none)
  | a :: rest =>
    let resp := env.fetchPdf pIdx a
    if isSuccess resp then
      ([.fetchAttempt pIdx a true], resp)
    else
      let r := attemptFetch env pIdx rest
      (.fetchAttempt pIdx a false :: r.1, r.2)

/-- The outer loop `for proxy_url in proxy_urls`: each proxy gets five
attempts; the first success ends the rotation (every success branch of the
handler body returns), exhaustion moves to the next proxy. -/
def rotateProxies (env : Env) : List String → Nat → List Ev × Option Response
  | [], _ => ([], none)
  | _ :: rest, pIdx =>
    let r := attemptFetch env pIdx (List.range 5)
    match r.2 with
    | some resp => (r.1, some resp)
    | none =>
      let r2 := rotateProxies env rest (pIdx + 1)
      (r.1 ++ r2.1, r2.2)

/-- The SMS loop `for entry in extracted_data`: one send attempt per entry
in order; a raised send error is caught and logged, so the loop always
continues with the next entry. -/
def dispatchSends (sendOk : Nat → Bool) (startIdx : Nat) : List PdfRecord → List Ev
  | [] => []
  | _ :: rest => .smsSend startIdx (sendOk startIdx) :: dispatchSends sendOk (startIdx + 1) rest

/-- The result of one handler run: the terminal state, the event trace,
and the content of the S3 hash file afterwards. -/
structure RunResult where
  outcome : Outcome
  events : List Ev
  store : Option String
deriving Repr, DecidableEq

/-- The handler body after a successful fetch (lines 101-159): hash the
content, compare with the expected hash, and either return no-change, or
delete-then-put the new hash file (aborting the run if that raises) and
only then extract and dispatch. -/
def onSuccess (env : Env) (store : Option String) (expected_hash : String)
    (resp : Response) (evs : List Ev) : RunResult :=
  let file_hash := pyUpper (env.sha256hex resp.content)
  if file_hash ≠ expected_hash then
    if env.deleteOk then
      if env.putOk then
        let extracted := parse_pdf (env.pdfPages resp.content)
        ⟨.notified,
         evs ++ [.storeDelete true, .storePut true, .extractRun] ++ dispatchSends env.sendOk 0 extracted,
         some (file_hash ++ "\n")⟩
      else
        ⟨.storeError, evs ++ [.storeDelete true, .storePut false], none⟩
    else
      ⟨.storeError, evs ++ [.storeDelete false], store⟩
  else
    ⟨.noChange, evs, store⟩

/-- `lambda_handler`: fetch the expected hash from the S3 URL (modelled as
reading the store; a missing file raises and returns early), normalise it
with `strip().upper()`, then rotate the proxies; a successful fetch
continues with `onSuccess`, exhaustion returns the 500 result. -/
def lambda_handler (env : Env) (proxy_urls : List String) (store : Option String) :
    RunResult :=
  match store with
  | none => ⟨.hashFetchError, [], none⟩
  | some txt =>
    let expected_hash := pyUpper (pyStrip txt)
    let fr := rotateProxies env proxy_urls 0
    match fr.2 with
    | some resp => onSuccess env (some txt) expected_hash resp fr.1
    | none => ⟨.exhausted, fr.1, some txt⟩

/-- Number of proxied fetch attempts in a trace. -/
def countFetch (evs : List Ev) : Nat :=
  evs.countP (fun e => match e with | .fetchAttempt _ _ _ => true | _ => false)

/-! ### Lemmas about the retry and rotation loops -/

/-- The trace of a run of proxies that all fail all five attempts. -/
def failEvs : List String → Nat → List Ev
  | [], _ => []
  | _ :: rest, idx =>
    (List.range 5).map (fun a => Ev.fetchAttempt idx a false) ++ failEvs rest (idx + 1)

theorem attemptFetch_allFail (env : Env) (p : Nat) :
    ∀ as : List Nat, (∀ a ∈ as, isSuccess (env.fetchPdf p a) = false) →
      attemptFetch env p as = (as.map (fun a => Ev.fetchAttempt p a false), none) := by
  intro as h
  induction as with
  | nil => rfl
  | cons a rest ih =>
    have ha : isSuccess (env.fetchPdf p a) = false := h a (by simp)
    have hrest := ih (fun b hb => h b (by simp [hb]))
    simp [attemptFetch, ha, hrest]

theorem attemptFetch_firstSuccess (env : Env) (p : Nat)
    (h : isSuccess (env.fetchPdf p 0) = true) :
    attemptFetch env p (List.range 5) = ([Ev.fetchAttempt p 0 true], env.fetchPdf p 0) := by
  have h5 : List.range 5 = 0 :: [1, 2, 3, 4] := rfl
  rw [h5]
  simp [attemptFetch, h]

theorem rotateProxies_allFail (env : Env) :
    ∀ (ps : List String) (idx : Nat),
      (∀ i a, idx ≤ i → isSuccess (env.fetchPdf i a) = false) →
      rotateProxies env ps idx = (failEvs ps idx, none) := by
  intro ps
  induction ps with
  | nil => intro idx _; rfl
  | cons x rest ih =>
    intro idx h
    have hatt := attemptFetch_allFail env idx (List.range 5)
      (fun a _ => h idx a (le_refl idx))
    have hrec := ih (idx + 1) (fun i a hi => h i a (by omega))
    simp [rotateProxies, hatt, hrec, failEvs]

theorem countFetch_failEvs :
    ∀ (ps : List String) (idx : Nat), countFetch (failEvs ps idx) = ps.length * 5 := by
  intro ps
  induction ps with
  | nil => intro idx; rfl
  | cons x rest ih =>
    intro idx
    have hblock :
        countFetch ((List.range 5).map (fun a => Ev.fetchAttempt idx a false)) = 5 := rfl
    calc countFetch (failEvs (x :: rest) idx)
        = countFetch ((List.range 5).map (fun a => Ev.fetchAttempt idx a false)) +
            countFetch (failEvs rest (idx + 1)) := by
          simp [failEvs, countFetch, List.countP_append]
      _ = 5 + rest.length * 5 := by rw [hblock, ih]
      _ = (x :: rest).length * 5 := by simp [List.length_cons]; ring

theorem mem_failEvs :
    ∀ (ps : List String) (idx : Nat) (e : Ev), e ∈ failEvs ps idx →
      ∃ p a, e = Ev.fetchAttempt p a false ∧ idx ≤ p ∧ p < idx + ps.length := by
  intro ps
  induction ps with
  | nil => intro idx e he; simp [failEvs] at he
  | cons x rest ih =>
    intro idx e he
    simp only [failEvs, List.mem_append, List.mem_map] at he
    rcases he with ⟨a, _, rfl⟩ | hmem
    · exact ⟨idx, a, rfl, le_refl idx, by simp⟩
    · obtain ⟨p, a, rfl, h1, h2⟩ := ih (idx + 1) _ hmem
      exact ⟨p, a, rfl, by omega, by simp at *; omega⟩

theorem rotateProxies_prefix_success (env : Env) :
    ∀ (pre : List String) (x : String) (post : List String) (idx : Nat),
      (∀ i a, idx ≤ i → i < idx + pre.length → isSuccess (env.fetchPdf i a) = false) →
      isSuccess (env.fetchPdf (idx + pre.length) 0) = true →
      rotateProxies env (pre ++ x :: post) idx =
        (failEvs pre idx ++ [Ev.fetchAttempt (idx + pre.length) 0 true],
         env.fetchPdf (idx + pre.length) 0) := by
  intro pre
  induction pre with
  | nil =>
    intro x post idx _ hsucc
    simp only [List.length_nil, Nat.add_zero] at hsucc
    obtain ⟨resp, hresp⟩ : ∃ resp, env.fetchPdf idx 0 = some resp := by
      cases h : env.fetchPdf idx 0 with
      | none => rw [h] at hsucc; simp [isSuccess] at hsucc
      | some r => exact ⟨r, rfl⟩
    simp [rotateProxies, attemptFetch_firstSuccess env idx hsucc, hresp, failEvs]
  | cons p pre' ih =>
    intro x post idx hfail hsucc
    have hatt := attemptFetch_allFail env idx (List.range 5)
      (fun a _ => hfail idx a (le_refl idx) (by simp))
    have harith : idx + (p :: pre').length = (idx + 1) + pre'.length := by
      simp; omega
    have hrec := ih x post (idx + 1)
      (fun i a h1 h2 => hfail i a (by omega) (by simp at *; omega))
      (by rw [harith] at hsucc; exact hsucc)
    simp only [List.cons_append, rotateProxies, hatt, failEvs, List.append_eq]
    rw [harith, hrec]
    simp

theorem attemptFetch_events (env : Env) (p : Nat) :
    ∀ (as : List Nat) (e : Ev), e ∈ (attemptFetch env p as).1 →
      ∃ a b, e = Ev.fetchAttempt p a b := by
  intro as
  induction as with
  | nil => intro e he; simp [attemptFetch] at he
  | cons a rest ih =>
    intro e he
    by_cases hs : isSuccess (env.fetchPdf p a)
    · simp [attemptFetch, hs] at he
      exact ⟨a, true, he⟩
    · simp [attemptFetch, hs] at he
      rcases he with rfl | hmem
      · exact ⟨a, false, rfl⟩
      · exact ih e hmem

theorem rotateProxies_events (env : Env) :
    ∀ (ps : List String) (idx : Nat) (e : Ev), e ∈ (rotateProxies env ps idx).1 →
      ∃ p a b, e = Ev.fetchAttempt p a b := by
  intro ps
  induction ps with
  | nil => intro idx e he; simp [rotateProxies] at he
  | cons x rest ih =>
    intro idx e he
    rcases hr : (attemptFetch env idx (List.range 5)).2 with _ | resp
    · simp only [rotateProxies, hr, List.mem_append] at he
      rcases he with hmem | hmem
      · obtain ⟨a, b, rfl⟩ := attemptFetch_events env idx _ e hmem
        exact ⟨idx, a, b, rfl⟩
      · exact ih (idx + 1) e hmem
    · simp only [rotateProxies, hr] at he
      obtain ⟨a, b, rfl⟩ := attemptFetch_events env idx _ e he
      exact ⟨idx, a, b, rfl⟩

/-! ### Lemmas about the SMS dispatch loop -/

theorem dispatchSends_length (f : Nat → Bool) :
    ∀ (l : List PdfRecord) (i : Nat), (dispatchSends f i l).length = l.length := by
  intro l
  induction l with
  | nil => intro i; rfl
  | cons r rest ih => intro i; simp [dispatchSends, ih]

theorem dispatchSends_get? (f : Nat → Bool) :
    ∀ (l : List PdfRecord) (i k : Nat),
      (dispatchSends f i l).get? k =
        if k < l.length then some (Ev.smsSend (i + k) (f (i + k))) else none := by
  intro l
  induction l with
  | nil => intro i k; simp [dispatchSends]
  | cons r rest ih =>
    intro i k
    cases k with
    | zero => simp [dispatchSends]
    | succ k' =>
      simp only [dispatchSends, List.get?_cons_succ]
      rw [ih (i + 1) k']
      have h1 : i + 1 + k' = i + (k' + 1) := by omega
      simp [h1, Nat.succ_lt_succ_iff]

theorem mem_dispatchSends (f : Nat → Bool) :
    ∀ (l : List PdfRecord) (i : Nat) (e : Ev), e ∈ dispatchSends f i l →
      ∃ j b, e = Ev.smsSend j b := by
  intro l
  induction l with
  | nil => intro i e he; simp [dispatchSends] at he
  | cons r rest ih =>
    intro i e he
    simp only [dispatchSends, List.mem_cons] at he
    rcases he with rfl | hmem
    · exact ⟨i, f i, rfl⟩
    · exact ih (i + 1) e hmem

/-! ### Lemmas about hashing, case normalisation and the success branch -/

/-- The alphabet of `hashlib.sha256(...).hexdigest()`: lowercase hex. -/
def hexLowerChars : List Char := "0123456789abcdef".data

theorem hexChar_facts :
    hexLowerChars.all (fun c =>
      !isSpaceCh (pyUpperChar c) && (pyUpperChar (pyUpperChar c) == pyUpperChar c)) = true := by
  decide

theorem hexChar_notSpace {c : Char} (h : c ∈ hexLowerChars) :
    isSpaceCh (pyUpperChar c) = false := by
  have := List.all_eq_true.mp hexChar_facts c h
  simp only [Bool.and_eq_true, Bool.not_eq_true', beq_iff_eq] at this
  exact this.1

theorem hexChar_upperIdem {c : Char} (h : c ∈ hexLowerChars) :
    pyUpperChar (pyUpperChar c) = pyUpperChar c := by
  have := List.all_eq_true.mp hexChar_facts c h
  simp only [Bool.and_eq_true, Bool.not_eq_true', beq_iff_eq] at this
  exact this.2

theorem dropWhile_of_all_neg {p : Char → Bool} :
    ∀ l : List Char, (∀ c ∈ l, p c = false) → l.dropWhile p = l := by
  intro l h
  cases l with
  | nil => rfl
  | cons c rest => simp [List.dropWhile, h c (by simp)]

theorem pyStrip_append_newline (m : List Char) (h : ∀ c ∈ m, isSpaceCh c = false) :
    pyStrip ⟨m ++ ['\n']⟩ = ⟨m⟩ := by
  unfold pyStrip
  cases m with
  | nil => rfl
  | cons c rest =>
    have h1 : List.dropWhile isSpaceCh ((c :: rest) ++ ['\n']) = (c :: rest) ++ ['\n'] := by
      simp [List.dropWhile, h c (by simp)]
    have h2 : ((c :: rest) ++ ['\n']).reverse = '\n' :: (c :: rest).reverse := by simp
    have h3 : List.dropWhile isSpaceCh ('\n' :: (c :: rest).reverse) = (c :: rest).reverse := by
      have hnl : isSpaceCh '\n' = true := by decide
      simp only [List.dropWhile, hnl]
      exact dropWhile_of_all_neg _ (fun x hx => h x (by simpa using List.mem_reverse.mp hx))
    simp only [String.data]
    rw [h1, h2, h3, List.reverse_reverse]

theorem pyUpper_idem_of_hex (s : String) (h : ∀ c ∈ s.data, c ∈ hexLowerChars) :
    pyUpper (pyUpper s) = pyUpper s := by
  unfold pyUpper
  simp only [String.data, List.map_map]
  congr 1
  exact List.map_congr_left (fun c hc => hexChar_upperIdem (h c hc))

/-- Reading back the stored `file_hash + "\n"` and normalising it with
`strip().upper()` recovers the fingerprint exactly, because a hex digest
has no whitespace and uppercasing is idempotent on it. -/
theorem expected_roundtrip (s : String) (h : ∀ c ∈ s.data, c ∈ hexLowerChars) :
    pyUpper (pyStrip (pyUpper s ++ "\n")) = pyUpper s := by
  have hform : pyUpper s ++ "\n" = ⟨s.data.map pyUpperChar ++ ['\n']⟩ := rfl
  rw [hform, pyStrip_append_newline _ (by
    intro c hc
    obtain ⟨c0, hc0, rfl⟩ := List.mem_map.mp hc
    exact hexChar_notSpace (h c0 hc0))]
  exact pyUpper_idem_of_hex s h

theorem countFetch_eq_zero (l : List Ev)
    (h : ∀ e ∈ l, ∀ p a b, e ≠ Ev.fetchAttempt p a b) : countFetch l = 0 := by
  unfold countFetch
  rw [List.countP_eq_zero]
  intro e he hp
  cases e with
  | fetchAttempt p a b => exact (h _ he p a b) rfl
  | storeDelete ok => simp at hp
  | storePut ok => simp at hp
  | extractRun => simp at hp
  | smsSend i b => simp at hp

theorem countFetch_append (l1 l2 : List Ev) :
    countFetch (l1 ++ l2) = countFetch l1 + countFetch l2 := by
  simp [countFetch, List.countP_append]

/-- Whatever the hash comparison and store outcomes are, the success
branch only appends store, extraction and send events to the fetch trace,
and never ends in the fetch-exhaustion or hash-fetch-error states. -/
theorem onSuccess_events (env : Env) (store : Option String) (exp : String)
    (resp : Response) (evs : List Ev) :
    ∃ extra, (onSuccess env store exp resp evs).events = evs ++ extra ∧
      (∀ e ∈ extra, ∀ p a b, e ≠ Ev.fetchAttempt p a b) ∧
      (onSuccess env store exp resp evs).outcome ≠ Outcome.exhausted ∧
      (onSuccess env store exp resp evs).outcome ≠ Outcome.hashFetchError := by
  unfold onSuccess
  by_cases hd : pyUpper (env.sha256hex resp.content) ≠ exp
  · by_cases hdel : env.deleteOk
    · by_cases hput : env.putOk
      · refine ⟨[Ev.storeDelete true, Ev.storePut true, Ev.extractRun] ++
          dispatchSends env.sendOk 0 (parse_pdf (env.pdfPages resp.content)), ?_, ?_, ?_, ?_⟩
        · simp [hd, hdel, hput]
        · intro e he p a b
          simp only [List.mem_append, List.mem_cons, List.not_mem_nil] at he
          rcases he with (rfl | rfl | rfl | h0) | hmem
          · simp
          · simp
          · simp
          · exact absurd h0 (by simp)
          · obtain ⟨j, c, rfl⟩ := mem_dispatchSends env.sendOk _ 0 e hmem
            simp
        · simp [hd, hdel, hput]
        · simp [hd, hdel, hput]
      · refine ⟨[Ev.storeDelete true, Ev.storePut false], ?_, ?_, ?_, ?_⟩
        · simp [hd, hdel, hput]
        · intro e he p a b
          simp only [List.mem_cons, List.not_mem_nil] at he
          rcases he with rfl | rfl | h0
          · simp
          · simp
          · exact absurd h0 (by simp)
        · simp [hd, hdel, hput]
        · simp [hd, hdel, hput]
    · refine ⟨[Ev.storeDelete false], ?_, ?_, ?_, ?_⟩
      · simp [hd, hdel]
      · intro e he p a b
        simp only [List.mem_cons, List.not_mem_nil] at he
        rcases he with rfl | h0
        · simp
        · exact absurd h0 (by simp)
      · simp [hd, hdel]
      · simp [hd, hdel]
  · refine ⟨[], by simp [hd], by simp, by simp [hd], by simp [hd]⟩

/-! ### Lemmas about the line-strategy traversal -/

theorem processLine_shape (cc : Option String) (acc : List StockRecord) (l : String) :
    ∃ δ, processLine cc acc l = acc ++ δ ∧ (∀ r ∈ δ, some r.county = cc) ∧
      (cc = none → δ = []) := by
  cases hm : matchRecordLine l.data with
  | none => exact ⟨[], by simp [processLine, hm], by simp, fun _ => rfl⟩
  | some tup =>
    obtain ⟨d, w, ct, sp, q, sz⟩ := tup
    cases cc with
    | none => exact ⟨[], by simp [processLine, hm], by simp, fun _ => rfl⟩
    | some county =>
      by_cases he : county.isEmpty
      · exact ⟨[], by simp [processLine, hm, he], by simp, by simp⟩
      · exact ⟨[⟨county, d, w, ct, sp, q, sz⟩], by simp [processLine, hm, he],
          by simp, by simp⟩

theorem foldl_processLine_shape (cc : Option String) :
    ∀ (lines : List String) (acc : List StockRecord),
      ∃ new, lines.foldl (processLine cc) acc = acc ++ new ∧
        (∀ r ∈ new, some r.county = cc) ∧ (cc = none → new = []) := by
  intro lines
  induction lines with
  | nil => intro acc; exact ⟨[], by simp, by simp, fun _ => rfl⟩
  | cons l rest ih =>
    intro acc
    obtain ⟨δ, hδ, hδc, hδn⟩ := processLine_shape cc acc l
    obtain ⟨new, hnew, hnewc, hnewn⟩ := ih (processLine cc acc l)
    refine ⟨δ ++ new, ?_, ?_, ?_⟩
    · rw [List.foldl_cons, hnew, hδ, List.append_assoc]
    · intro r hr
      rcases List.mem_append.mp hr with hr | hr
      · exact hδc r hr
      · exact hnewc r hr
    · intro hnone
      rw [hδn hnone, hnewn hnone]
      rfl

theorem processPage_key_of_matches (st : Option String × List StockRecord) (t : String)
    (h : findallCounty t.data ≠ []) :
    (processPage st t).1 = (findallCounty t.data).getLast? := by
  cases hg : (findallCounty t.data).getLast? with
  | none => exact absurd (List.getLast?_eq_none_iff.mp hg) h
  | some m => simp [processPage, hg]

theorem processPage_key_of_no_matches (st : Option String × List StockRecord) (t : String)
    (h : findallCounty t.data = []) :
    (processPage st t).1 = st.1 := by
  simp [processPage, h]

theorem processPage_records (st : Option String × List StockRecord) (t : String) :
    ∃ new, (processPage st t).2 = st.2 ++ new ∧
      (∀ r ∈ new, some r.county = (processPage st t).1) ∧
      ((processPage st t).1 = none → new = []) := by
  obtain ⟨new, hnew, hc, hn⟩ :=
    foldl_processLine_shape
      (match (findallCounty t.data).getLast? with
       | some m => some m
       | none => st.1) (pySplitLines t) st.2
  exact ⟨new, hnew, hc, hn⟩

theorem foldl_processPage_no_header :
    ∀ (pre : List String), (∀ t ∈ pre, findallCounty t.data = []) →
      pre.foldl processPage (none, []) = (none, []) := by
  intro pre
  induction pre with
  | nil => intro _; rfl
  | cons t rest ih =>
    intro h
    have hk : (processPage (none, []) t).1 = none :=
      processPage_key_of_no_matches (none, []) t (h t (by simp))
    obtain ⟨new, hnew, _, hn⟩ := processPage_records (none, []) t
    have h2 : (processPage (none, []) t).2 = [] := by
      rw [hnew, hn hk]
      rfl
    have h1 : processPage (none, []) t = ((none : Option String), ([] : List StockRecord)) :=
      Prod.ext_iff.mpr ⟨hk, h2⟩
    rw [List.foldl_cons, h1]
    exact ih (fun t' ht' => h t' (by simp [ht']))

/-! ### Lemmas about the grouped export -/

theorem insertStr_perm (s : String) : ∀ l : List String, (insertStr s l).Perm (s :: l) := by
  intro l
  induction l with
  | nil => exact List.Perm.refl _
  | cons t ts ih =>
    by_cases h : lexLe s.data t.data
    · simp [insertStr, h]
    · simp only [insertStr, h, if_neg, Bool.false_eq_true, not_false_eq_true]
      exact (ih.cons t).trans (List.Perm.swap s t ts)

theorem sortStrings_perm : ∀ l : List String, (sortStrings l).Perm l := by
  intro l
  induction l with
  | nil => exact List.Perm.refl _
  | cons s ss ih => exact (insertStr_perm s (sortStrings ss)).trans (ih.cons s)

theorem mem_sortStrings_dedup (l : List String) (k : String) :
    k ∈ sortStrings l.dedup ↔ k ∈ l := by
  rw [(sortStrings_perm l.dedup).mem_iff]
  exact List.mem_dedup

theorem nodup_sortStrings_dedup (l : List String) : (sortStrings l.dedup).Nodup :=
  ((sortStrings_perm l.dedup).nodup_iff).mpr (List.nodup_dedup l)

theorem truncate31_length (s : String) : (truncate31 s).data.length ≤ 31 := by
  simp [truncate31]

/-! ### Inversion lemmas for the backtracking matcher -/

theorem repTry_some {α : Type} {p : Char → Bool} {lo : Nat} {cs : List Char}
    {k : List Char → List Char → Option α} {v : α} :
    ∀ n, repTry p lo cs k n = some v →
      ∃ m, 1 ≤ m ∧ lo ≤ m ∧ m ≤ cs.length ∧ (cs.take m).all p = true ∧
        k (cs.take m) (cs.drop m) = some v := by
  intro n
  induction n with
  | zero => intro h; simp [repTry] at h
  | succ n ih =>
    intro h
    simp only [repTry] at h
    by_cases hc : (lo ≤ n + 1 && n + 1 ≤ cs.length && (cs.take (n + 1)).all p) = true
    · rw [if_pos hc] at h
      simp only [Bool.and_eq_true, decide_eq_true_eq] at hc
      cases hk : k (cs.take (n + 1)) (cs.drop (n + 1)) with
      | some w =>
        rw [hk] at h
        simp only at h
        cases h
        exact ⟨n + 1, by omega, hc.1.1, hc.1.2, hc.2, hk⟩
      | none =>
        rw [hk] at h
        simp only at h
        exact ih h
    · rw [if_neg hc] at h
      simp only at h
      exact ih h

theorem plusGreedy_some {α : Type} {p : Char → Bool} {cs : List Char}
    {k : List Char → List Char → Option α} {v : α} (h : plusGreedy p cs k = some v) :
    ∃ m, 1 ≤ m ∧ m ≤ cs.length ∧ (cs.take m).all p = true ∧
      k (cs.take m) (cs.drop m) = some v := by
  obtain ⟨m, h1, _, h3, h4, h5⟩ := repTry_some _ h
  exact ⟨m, h1, h3, h4, h5⟩

theorem rep12_some {α : Type} {p : Char → Bool} {cs : List Char}
    {k : List Char → List Char → Option α} {v : α} (h : rep12 p cs k = some v) :
    ∃ m, 1 ≤ m ∧ m ≤ cs.length ∧ (cs.take m).all p = true ∧
      k (cs.take m) (cs.drop m) = some v := by
  obtain ⟨m, h1, _, h3, h4, h5⟩ := repTry_some _ h
  exact ⟨m, h1, h3, h4, h5⟩

theorem rep4_some {α : Type} {p : Char → Bool} {cs : List Char}
    {k : List Char → List Char → Option α} {v : α} (h : rep4 p cs k = some v) :
    ∃ m, 1 ≤ m ∧ m ≤ cs.length ∧ (cs.take m).all p = true ∧
      k (cs.take m) (cs.drop m) = some v := by
  obtain ⟨m, h1, _, h3, h4, h5⟩ := repTry_some _ h
  exact ⟨m, h1, h3, h4, h5⟩

theorem litChar_some {α : Type} {ch : Char} {cs : List Char} {k : List Char → Option α}
    {v : α} (h : litChar ch cs k = some v) : ∃ rest, cs = ch :: rest ∧ k rest = some v := by
  cases cs with
  | nil => simp [litChar] at h
  | cons c rest =>
    by_cases hc : c = ch
    · subst hc
      rw [litChar, if_pos rfl] at h
      exact ⟨rest, rfl, h⟩
    · simp [litChar, hc] at h

/-- Every successful record-line match captures a nonempty run of digits
for the quantity and for the size. -/
theorem matchRecordLine_digits {cs : List Char} {d w ct sp q sz : String}
    (h : matchRecordLine cs = some (d, w, ct, sp, q, sz)) :
    q.data ≠ [] ∧ q.data.all isDigitCh = true ∧
    sz.data ≠ [] ∧ sz.data.all isDigitCh = true := by
  unfold matchRecordLine at h
  obtain ⟨m1, hm1, hl1, ha1, h⟩ := rep12_some h
  obtain ⟨r2, hr2, h⟩ := litChar_some h
  obtain ⟨m3, hm3, hl3, ha3, h⟩ := rep12_some h
  obtain ⟨r4, hr4, h⟩ := litChar_some h
  obtain ⟨m5, hm5, hl5, ha5, h⟩ := rep4_some h
  obtain ⟨m6, hm6, hl6, ha6, h⟩ := plusGreedy_some h
  obtain ⟨m7, hm7, hl7, ha7, h⟩ := plusGreedy_some h
  obtain ⟨m8, hm8, hl8, ha8, h⟩ := plusGreedy_some h
  obtain ⟨m9, hm9, hl9, ha9, h⟩ := plusGreedy_some h
  obtain ⟨m10, hm10, hl10, ha10, h⟩ := plusGreedy_some h
  obtain ⟨m11, hm11, hl11, ha11, h⟩ := plusGreedy_some h
  obtain ⟨m12, hm12, hl12, ha12, h⟩ := plusGreedy_some h
  obtain ⟨m13, hm13, hl13, ha13, h⟩ := plusGreedy_some h
  obtain ⟨m14, hm14, hl14, ha14, h⟩ := plusGreedy_some h
  obtain ⟨m15, hm15, hl15, ha15, h⟩ := plusGreedy_some h
  simp only [Option.some.injEq, Prod.mk.injEq] at h
  obtain ⟨-, -, -, -, hq, hsz⟩ := h
  subst hq hsz
  refine ⟨?_, ha13, ?_, ha15⟩
  · intro hemp
    have hlen := congrArg List.length hemp
    simp only [String.data, List.length_take, List.length_nil] at hlen
    omega
  · intro hemp
    have hlen := congrArg List.length hemp
    simp only [String.data, List.length_take, List.length_nil] at hlen
    omega

/-! ### Claim theorems -/

/-- C2: with five attempts per proxy, if the first `j` proxies fail on
every attempt and proxy `j+1` succeeds on its first attempt (`j` below the
list length), the handler performs exactly `j·5 + 1` fetch attempts, never
touches a proxy beyond position `j+1`, records the success, and does not
end in fetch exhaustion; if every proxy fails on every attempt, the
handler ends in the terminal fetch-exhaustion failure after exactly
`k·5` attempts. -/
theorem c2_proxy_rotation (env : Env) (proxies : List String) (s0 : String) :
    (∀ j, j < proxies.length →
      (∀ i a, i < j → isSuccess (env.fetchPdf i a) = false) →
      isSuccess (env.fetchPdf j 0) = true →
      countFetch (lambda_handler env proxies (some s0)).events = j * 5 + 1 ∧
      (∀ p a b, Ev.fetchAttempt p a b ∈ (lambda_handler env proxies (some s0)).events → p ≤ j) ∧
      Ev.fetchAttempt j 0 true ∈ (lambda_handler env proxies (some s0)).events ∧
      (lambda_handler env proxies (some s0)).outcome ≠ Outcome.exhausted ∧
      (lambda_handler env proxies (some s0)).outcome ≠ Outcome.hashFetchError) ∧
    ((∀ i a, isSuccess (env.fetchPdf i a) = false) →
      (lambda_handler env proxies (some s0)).outcome = Outcome.exhausted ∧
      countFetch (lambda_handler env proxies (some s0)).events = proxies.length * 5) := by
  constructor
  · intro j hj hfail hsucc
    have hlen : (proxies.take j).length = j := by
      simp [List.length_take, Nat.min_eq_left (Nat.le_of_lt hj)]
    have hsplit : proxies = proxies.take j ++ proxies[j] :: proxies.drop (j + 1) := by
      conv_lhs => rw [← List.take_append_drop j proxies]
      rw [List.drop_eq_getElem_cons hj]
    have hrot : rotateProxies env proxies 0 =
        (failEvs (proxies.take j) 0 ++ [Ev.fetchAttempt j 0 true], env.fetchPdf j 0) := by
      conv_lhs => rw [hsplit]
      have := rotateProxies_prefix_success env (proxies.take j) proxies[j]
        (proxies.drop (j + 1)) 0
        (fun i a _ hi => hfail i a (by rw [hlen] at hi; omega))
        (by rw [hlen]; simpa using hsucc)
      rw [this]
      rw [hlen]
      simp
    obtain ⟨resp, hresp⟩ : ∃ resp, env.fetchPdf j 0 = some resp := by
      cases hr : env.fetchPdf j 0 with
      | none => rw [hr] at hsucc; simp [isSuccess] at hsucc
      | some r => exact ⟨r, rfl⟩
    have hrun : lambda_handler env proxies (some s0) =
        onSuccess env (some s0) (pyUpper (pyStrip s0)) resp
          (failEvs (proxies.take j) 0 ++ [Ev.fetchAttempt j 0 true]) := by
      simp only [lambda_handler, hrot, hresp]
    obtain ⟨extra, hev, hnf, hox, hoh⟩ := onSuccess_events env (some s0)
      (pyUpper (pyStrip s0)) resp (failEvs (proxies.take j) 0 ++ [Ev.fetchAttempt j 0 true])
    rw [hrun]
    refine ⟨?_, ?_, ?_, hox, hoh⟩
    · rw [hev, countFetch_append, countFetch_append, countFetch_failEvs, hlen,
        countFetch_eq_zero extra hnf]
      rfl
    · intro p a b hmem
      rw [hev] at hmem
      rcases List.mem_append.mp hmem with hmem | hmem
      · rcases List.mem_append.mp hmem with hmem | hmem
        · obtain ⟨p', a', heq, h1, h2⟩ := mem_failEvs (proxies.take j) 0 _ hmem
          rw [hlen] at h2
          cases heq
          omega
        · simp at hmem
          rw [hmem.1]
      · exact absurd rfl (hnf _ hmem p a b)
    · rw [hev]
      exact List.mem_append.mpr (Or.inl (List.mem_append.mpr (Or.inr (by simp))))
  · intro hfail
    have hrot := rotateProxies_allFail env proxies 0 (fun i a _ => hfail i a)
    have hrun : lambda_handler env proxies (some s0) =
        ⟨Outcome.exhausted, failEvs proxies 0, some s0⟩ := by
      simp only [lambda_handler, hrot]
    rw [hrun]
    exact ⟨rfl, countFetch_failEvs proxies 0⟩

/-- A concrete environment for exercising the rotation property: proxy 0
always fails, every later proxy succeeds immediately. -/
def envC2 : Env where
  fetchPdf := fun i _ => if i = 0 then none else some ⟨200, [7]⟩
  sha256hex := fun _ => "aa"
  pdfPages := fun _ => []
  deleteOk := true
  putOk := true
  sendOk := fun _ => true

theorem c2_proxy_rotation_witness :
    (1 < (["p0", "p1"] : List String).length ∧
      isSuccess (envC2.fetchPdf 1 0) = true ∧
      countFetch (lambda_handler envC2 ["p0", "p1"] (some "OLD")).events = 1 * 5 + 1 ∧
      (lambda_handler envC2 ["p0", "p1"] (some "OLD")).outcome ≠ Outcome.exhausted) ∧
    ((lambda_handler (Env.mk (fun _ _ => none) (fun _ => "aa") (fun _ => []) true true
        (fun _ => true)) ["q0"] (some "OLD")).outcome = Outcome.exhausted ∧
      countFetch (lambda_handler (Env.mk (fun _ _ => none) (fun _ => "aa") (fun _ => [])
        true true (fun _ => true)) ["q0"] (some "OLD")).events = 1 * 5) := by
  have h1 := (c2_proxy_rotation envC2 ["p0", "p1"] "OLD").1 1 (by decide)
    (fun i a hi => by
      have hi0 : i = 0 := by omega
      subst hi0
      rfl)
    (by rfl)
  have h2 := (c2_proxy_rotation (Env.mk (fun _ _ => none) (fun _ => "aa") (fun _ => [])
      true true (fun _ => true)) ["q0"] "OLD").2 (fun i a => rfl)
  exact ⟨⟨by decide, rfl, h1.1, h1.2.2.2.1⟩, h2.1, h2.2⟩

/-! ### Branch equations for the handler -/

theorem lambda_handler_eq_onSuccess (env : Env) (proxies : List String) (s0 : String)
    (evs : List Ev) (resp : Response)
    (hfetch : rotateProxies env proxies 0 = (evs, some resp)) :
    lambda_handler env proxies (some s0) =
      onSuccess env (some s0) (pyUpper (pyStrip s0)) resp evs := by
  simp only [lambda_handler, hfetch]

theorem onSuccess_changed (env : Env) (store : Option String) (exp : String)
    (resp : Response) (evs : List Ev)
    (hdiff : pyUpper (env.sha256hex resp.content) ≠ exp)
    (hdel : env.deleteOk = true) (hput : env.putOk = true) :
    onSuccess env store exp resp evs =
      ⟨Outcome.notified,
       evs ++ [Ev.storeDelete true, Ev.storePut true, Ev.extractRun] ++
         dispatchSends env.sendOk 0 (parse_pdf (env.pdfPages resp.content)),
       some (pyUpper (env.sha256hex resp.content) ++ "\n")⟩ := by
  simp [onSuccess, hdiff, hdel, hput]

theorem onSuccess_unchanged (env : Env) (store : Option String) (exp : String)
    (resp : Response) (evs : List Ev)
    (heq : pyUpper (env.sha256hex resp.content) = exp) :
    onSuccess env store exp resp evs = ⟨Outcome.noChange, evs, store⟩ := by
  simp [onSuccess, heq]

theorem onSuccess_deleteFail (env : Env) (store : Option String) (exp : String)
    (resp : Response) (evs : List Ev)
    (hdiff : pyUpper (env.sha256hex resp.content) ≠ exp)
    (hdel : env.deleteOk = false) :
    onSuccess env store exp resp evs =
      ⟨Outcome.storeError, evs ++ [Ev.storeDelete false], store⟩ := by
  simp [onSuccess, hdiff, hdel]

theorem onSuccess_putFail (env : Env) (store : Option String) (exp : String)
    (resp : Response) (evs : List Ev)
    (hdiff : pyUpper (env.sha256hex resp.content) ≠ exp)
    (hdel : env.deleteOk = true) (hput : env.putOk = false) :
    onSuccess env store exp resp evs =
      ⟨Outcome.storeError, evs ++ [Ev.storeDelete true, Ev.storePut false], none⟩ := by
  simp [onSuccess, hdiff, hdel, hput]

theorem evs_of_rotate_no_sms (env : Env) (proxies : List String) (evs : List Ev)
    (r : Option Response) (hfetch : rotateProxies env proxies 0 = (evs, r)) :
    ∀ e ∈ evs, (∀ i b, e ≠ Ev.smsSend i b) ∧ e ≠ Ev.extractRun ∧
      (∀ b, e ≠ Ev.storeDelete b ∧ e ≠ Ev.storePut b) := by
  intro e he
  have hmem : e ∈ (rotateProxies env proxies 0).1 := by rw [hfetch]; exact he
  obtain ⟨p, a, b, rfl⟩ := rotateProxies_events env proxies 0 e hmem
  exact ⟨fun _ _ => by simp, by simp, fun _ => ⟨by simp, by simp⟩⟩

/-- C4: when the computed fingerprint differs from the stored one, the
delete-and-put of the hash file is completed before `parse_pdf` runs and
before any SMS is sent; and if the store update fails, the run ends in the
store-error state with no extraction performed and zero notifications
sent. -/
theorem c4_commit_before_notify (env : Env) (proxies : List String) (s0 : String)
    (evs : List Ev) (resp : Response)
    (hfetch : rotateProxies env proxies 0 = (evs, some resp))
    (hdiff : pyUpper (env.sha256hex resp.content) ≠ pyUpper (pyStrip s0)) :
    (env.deleteOk = true → env.putOk = true →
      (lambda_handler env proxies (some s0)).events =
        evs ++ [Ev.storeDelete true, Ev.storePut true, Ev.extractRun] ++
          dispatchSends env.sendOk 0 (parse_pdf (env.pdfPages resp.content)) ∧
      (∀ e ∈ evs, (∀ i b, e ≠ Ev.smsSend i b) ∧ e ≠ Ev.extractRun)) ∧
    ((env.deleteOk = false ∨ env.putOk = false) →
      (lambda_handler env proxies (some s0)).outcome = Outcome.storeError ∧
      (∀ e ∈ (lambda_handler env proxies (some s0)).events,
        (∀ i b, e ≠ Ev.smsSend i b) ∧ e ≠ Ev.extractRun)) := by
  have hrun := lambda_handler_eq_onSuccess env proxies s0 evs resp hfetch
  constructor
  · intro hdel hput
    rw [hrun, onSuccess_changed env (some s0) _ resp evs hdiff hdel hput]
    refine ⟨rfl, ?_⟩
    intro e he
    obtain ⟨h1, h2, _⟩ := evs_of_rotate_no_sms env proxies evs (some resp) hfetch e he
    exact ⟨h1, h2⟩
  · intro hor
    cases hdel : env.deleteOk with
    | false =>
      rw [hrun, onSuccess_deleteFail env (some s0) _ resp evs hdiff hdel]
      refine ⟨rfl, ?_⟩
      intro e he
      rcases List.mem_append.mp he with he | he
      · obtain ⟨h1, h2, _⟩ := evs_of_rotate_no_sms env proxies evs (some resp) hfetch e he
        exact ⟨h1, h2⟩
      · simp only [List.mem_singleton] at he
        subst he
        exact ⟨fun _ _ => by simp, by simp⟩
    | true =>
      have hput : env.putOk = false := by
        rcases hor with h | h
        · rw [hdel] at h; cases h
        · exact h
      rw [hrun, onSuccess_putFail env (some s0) _ resp evs hdiff hdel hput]
      refine ⟨rfl, ?_⟩
      intro e he
      rcases List.mem_append.mp he with he | he
      · obtain ⟨h1, h2, _⟩ := evs_of_rotate_no_sms env proxies evs (some resp) hfetch e he
        exact ⟨h1, h2⟩
      · rcases List.mem_cons.mp he with rfl | he
        · exact ⟨fun _ _ => by simp, by simp⟩
        · simp only [List.mem_singleton] at he
          subst he
          exact ⟨fun _ _ => by simp, by simp⟩

/-- A concrete environment whose store update succeeds. -/
def envC4a : Env where
  fetchPdf := fun _ _ => some ⟨200, [1]⟩
  sha256hex := fun _ => "ab"
  pdfPages := fun _ => []
  deleteOk := true
  putOk := true
  sendOk := fun _ => true

/-- A concrete environment whose store delete raises. -/
def envC4b : Env where
  fetchPdf := fun _ _ => some ⟨200, [1]⟩
  sha256hex := fun _ => "ab"
  pdfPages := fun _ => []
  deleteOk := false
  putOk := true
  sendOk := fun _ => true

theorem c4_commit_before_notify_witness :
    ((lambda_handler envC4a ["p"] (some "OLD")).events =
      [Ev.fetchAttempt 0 0 true] ++ [Ev.storeDelete true, Ev.storePut true, Ev.extractRun] ++
        dispatchSends envC4a.sendOk 0 (parse_pdf (envC4a.pdfPages (Response.mk 200 [1]).content))) ∧
    (lambda_handler envC4b ["p"] (some "OLD")).outcome = Outcome.storeError := by
  have h1 := (c4_commit_before_notify envC4a ["p"] "OLD" [Ev.fetchAttempt 0 0 true]
    ⟨200, [1]⟩ rfl (by decide)).1 rfl rfl
  have h2 := (c4_commit_before_notify envC4b ["p"] "OLD" [Ev.fetchAttempt 0 0 true]
    ⟨200, [1]⟩ rfl (by decide)).2 (Or.inl rfl)
  exact ⟨h1.1, h2.1⟩

/-- C9: on the changed path, the dispatcher attempts exactly one send per
extracted record, sequentially in extractor order, and the outcome of each
individual send does not affect whether the later sends are attempted. -/
theorem c9_dispatch_partial_failure (env : Env) (proxies : List String) (s0 : String)
    (evs : List Ev) (resp : Response)
    (hfetch : rotateProxies env proxies 0 = (evs, some resp))
    (hdiff : pyUpper (env.sha256hex resp.content) ≠ pyUpper (pyStrip s0))
    (hdel : env.deleteOk = true) (hput : env.putOk = true) :
    (lambda_handler env proxies (some s0)).outcome = Outcome.notified ∧
    ∃ sends, (lambda_handler env proxies (some s0)).events =
        evs ++ [Ev.storeDelete true, Ev.storePut true, Ev.extractRun] ++ sends ∧
      sends.length = (parse_pdf (env.pdfPages resp.content)).length ∧
      (∀ k, k < (parse_pdf (env.pdfPages resp.content)).length →
        sends.get? k = some (Ev.smsSend k (env.sendOk k))) := by
  rw [lambda_handler_eq_onSuccess env proxies s0 evs resp hfetch,
    onSuccess_changed env (some s0) _ resp evs hdiff hdel hput]
  refine ⟨rfl, dispatchSends env.sendOk 0 (parse_pdf (env.pdfPages resp.content)), rfl,
    dispatchSends_length _ _ 0, ?_⟩
  intro k hk
  rw [dispatchSends_get?]
  simp [hk]

/-- A concrete environment yielding three extracted records whose second
send fails. -/
def envC9 : Env where
  fetchPdf := fun _ _ => some ⟨200, [1]⟩
  sha256hex := fun _ => "ab"
  pdfPages := fun _ =>
    [[[["a"], ["b"], ["c"], ["d"], ["e"], ["f"]],
      [["g"], ["h"], ["i"], ["j"], ["k"], ["l"]],
      [["m"], ["n"], ["o"], ["q"], ["r"], ["s"]]]]
  deleteOk := true
  putOk := true
  sendOk := fun i => !(i == 1)

theorem c9_dispatch_partial_failure_witness :
    (lambda_handler envC9 ["p"] (some "OLD")).outcome = Outcome.notified ∧
    (lambda_handler envC9 ["p"] (some "OLD")).events =
      [Ev.fetchAttempt 0 0 true, Ev.storeDelete true, Ev.storePut true, Ev.extractRun,
       Ev.smsSend 0 true, Ev.smsSend 1 false, Ev.smsSend 2 true] := by
  have h := c9_dispatch_partial_failure envC9 ["p"] "OLD" [Ev.fetchAttempt 0 0 true]
    ⟨200, [1]⟩ rfl (by decide) rfl rfl
  exact ⟨h.1, by decide⟩

/-- C5: with a reliable store and a hex fingerprint, a run that detects a
change writes `file_hash + "\n"`; a second run over the unchanged snapshot
reads that value back, normalises it to the same fingerprint, reports
no change, leaves the store untouched and performs no store write; and
whenever the computed fingerprint already equals the normalised stored
value, the run reports no change and performs no store write. -/
theorem c5_detect_and_commit (env : Env) (proxies : List String) (evs : List Ev)
    (resp : Response)
    (hfetch : rotateProxies env proxies 0 = (evs, some resp))
    (hhex : ∀ c ∈ (env.sha256hex resp.content).data, c ∈ hexLowerChars)
    (hdel : env.deleteOk = true) (hput : env.putOk = true) :
    (∀ s0 : String, pyUpper (env.sha256hex resp.content) ≠ pyUpper (pyStrip s0) →
      (lambda_handler env proxies (some s0)).outcome = Outcome.notified ∧
      (lambda_handler env proxies (some s0)).store =
        some (pyUpper (env.sha256hex resp.content) ++ "\n") ∧
      (lambda_handler env proxies (lambda_handler env proxies (some s0)).store).outcome =
        Outcome.noChange ∧
      (lambda_handler env proxies (lambda_handler env proxies (some s0)).store).store =
        (lambda_handler env proxies (some s0)).store ∧
      (∀ b, Ev.storeDelete b ∉
          (lambda_handler env proxies (lambda_handler env proxies (some s0)).store).events ∧
        Ev.storePut b ∉
          (lambda_handler env proxies (lambda_handler env proxies (some s0)).store).events)) ∧
    (∀ s0 : String, pyUpper (env.sha256hex resp.content) = pyUpper (pyStrip s0) →
      (lambda_handler env proxies (some s0)).outcome = Outcome.noChange ∧
      (lambda_handler env proxies (some s0)).store = some s0 ∧
      (∀ b, Ev.storeDelete b ∉ (lambda_handler env proxies (some s0)).events ∧
        Ev.storePut b ∉ (lambda_handler env proxies (some s0)).events)) := by
  have hnostore : ∀ b, Ev.storeDelete b ∉ evs ∧ Ev.storePut b ∉ evs := by
    intro b
    constructor
    · intro hmem
      exact ((evs_of_rotate_no_sms env proxies evs (some resp) hfetch _ hmem).2.2 b).1 rfl
    · intro hmem
      exact ((evs_of_rotate_no_sms env proxies evs (some resp) hfetch _ hmem).2.2 b).2 rfl
  constructor
  · intro s0 hdiff
    have hrun1 : lambda_handler env proxies (some s0) =
        ⟨Outcome.notified,
         evs ++ [Ev.storeDelete true, Ev.storePut true, Ev.extractRun] ++
           dispatchSends env.sendOk 0 (parse_pdf (env.pdfPages resp.content)),
         some (pyUpper (env.sha256hex resp.content) ++ "\n")⟩ := by
      rw [lambda_handler_eq_onSuccess env proxies s0 evs resp hfetch,
        onSuccess_changed env (some s0) _ resp evs hdiff hdel hput]
    have hround : pyUpper (pyStrip (pyUpper (env.sha256hex resp.content) ++ "\n")) =
        pyUpper (env.sha256hex resp.content) := expected_roundtrip _ hhex
    have hrun2 : lambda_handler env proxies
        (some (pyUpper (env.sha256hex resp.content) ++ "\n")) =
        ⟨Outcome.noChange, evs, some (pyUpper (env.sha256hex resp.content) ++ "\n")⟩ := by
      rw [lambda_handler_eq_onSuccess env proxies _ evs resp hfetch,
        onSuccess_unchanged env _ _ resp evs hround.symm]
    rw [hrun1]
    refine ⟨rfl, rfl, ?_, ?_, ?_⟩
    · simp only [hrun2]
    · simp only [hrun2]
    · intro b
      simp only [hrun2]
      exact hnostore b
  · intro s0 heq
    have hrun : lambda_handler env proxies (some s0) =
        ⟨Outcome.noChange, evs, some s0⟩ := by
      rw [lambda_handler_eq_onSuccess env proxies s0 evs resp hfetch,
        onSuccess_unchanged env _ _ resp evs heq]
    rw [hrun]
    exact ⟨rfl, rfl, hnostore⟩

/-- A concrete environment with a reliable store and a fixed hex digest. -/
def envC5 : Env where
  fetchPdf := fun _ _ => some ⟨200, [1]⟩
  sha256hex := fun _ => "7f"
  pdfPages := fun _ => []
  deleteOk := true
  putOk := true
  sendOk := fun _ => true

theorem c5_detect_and_commit_witness :
    ((lambda_handler envC5 ["p"] (some "OLD")).outcome = Outcome.notified ∧
      (lambda_handler envC5 ["p"]
        (lambda_handler envC5 ["p"] (some "OLD")).store).outcome = Outcome.noChange) ∧
    (lambda_handler envC5 ["p"] (some "7f")).outcome = Outcome.noChange := by
  have h1 := (c5_detect_and_commit envC5 ["p"] [Ev.fetchAttempt 0 0 true] ⟨200, [1]⟩
    rfl (by decide) rfl rfl).1 "OLD" (by decide)
  have h2 := (c5_detect_and_commit envC5 ["p"] [Ev.fetchAttempt 0 0 true] ⟨200, [1]⟩
    rfl (by decide) rfl rfl).2 "7f" (by decide)
  exact ⟨⟨h1.1, h1.2.2.1⟩, h2.1⟩

/-- C3: within one sequential traversal, the last county match of a page
becomes the current grouping key as soon as that page is processed; pages
without a match leave the key untouched; every record emitted while
processing a page carries exactly the page's effective key, and nothing is
emitted while no key exists; consequently a document whose pages contain
no header yields no records at all. -/
theorem c3_grouping_key (pages : List String) :
    (∀ (st : Option String × List StockRecord) (t : String),
      findallCounty t.data ≠ [] →
      (processPage st t).1 = (findallCounty t.data).getLast?) ∧
    (∀ (st : Option String × List StockRecord) (t : String),
      findallCounty t.data = [] → (processPage st t).1 = st.1) ∧
    (∀ (st : Option String × List StockRecord) (t : String),
      ∃ new, (processPage st t).2 = st.2 ++ new ∧
        (∀ r ∈ new, some r.county = (processPage st t).1) ∧
        ((processPage st t).1 = none → new = [])) ∧
    ((∀ t ∈ pages, findallCounty t.data = []) → extract_all_data pages = []) := by
  refine ⟨processPage_key_of_matches, processPage_key_of_no_matches,
    processPage_records, ?_⟩
  intro h
  unfold extract_all_data
  rw [foldl_processPage_no_header pages h]

theorem c3_grouping_key_witness :
    (processPage (none, []) "SOMERSET County").1 =
      (findallCounty "SOMERSET County".data).getLast? ∧
    (processPage (some "X", []) "no match in this line").1 = some "X" ∧
    extract_all_data ["3/1/2024 A B C 1 2"] = [] := by
  have h := c3_grouping_key ["3/1/2024 A B C 1 2"]
  exact ⟨h.1 (none, []) "SOMERSET County" (by decide),
    h.2.1 (some "X", []) "no match in this line" (by decide),
    h.2.2.2 (by decide)⟩

/-- C8: the empty record set is a hard error before any sheet is written;
a non-empty record set is exported as exactly one sheet per distinct
county, named by the county truncated to at most 31 characters, each sheet
holding the records of its county in document-encounter order and never
empty. -/
theorem c8_bulk_export (all_data : List StockRecord) :
    (all_data = [] → export_sheets all_data = Except.error "No data extracted from the PDF.") ∧
    (all_data ≠ [] →
      ∃ keys : List String, keys.Nodup ∧
        (∀ c, c ∈ keys ↔ c ∈ all_data.map (fun r => r.county)) ∧
        export_sheets all_data =
          Except.ok (keys.map (fun k =>
            (truncate31 k, all_data.filter (fun r => r.county = k)))) ∧
        (∀ k ∈ keys, (truncate31 k).data.length ≤ 31 ∧
          all_data.filter (fun r => r.county = k) ≠ [] ∧
          (all_data.filter (fun r => r.county = k)).Sublist all_data)) := by
  constructor
  · intro h
    subst h
    rfl
  · intro h
    have hne : all_data.isEmpty = false := by
      cases all_data with
      | nil => exact absurd rfl h
      | cons a l => rfl
    refine ⟨sortStrings ((all_data.map (fun r => r.county)).dedup),
      nodup_sortStrings_dedup _, fun c => mem_sortStrings_dedup _ c, ?_, ?_⟩
    · simp [export_sheets, hne]
    · intro k hk
      refine ⟨truncate31_length k, ?_, List.filter_sublist all_data⟩
      have hkc : k ∈ all_data.map (fun r => r.county) := (mem_sortStrings_dedup _ k).mp hk
      obtain ⟨r, hr, hrk⟩ := List.mem_map.mp hkc
      intro hemp
      have hmem : r ∈ all_data.filter (fun r => r.county = k) :=
        List.mem_filter.mpr ⟨hr, by simp [hrk]⟩
      rw [hemp] at hmem
      exact absurd hmem (List.not_mem_nil r)

theorem c8_bulk_export_witness :
    export_sheets [] = Except.error "No data extracted from the PDF." ∧
    ∃ keys : List String, keys.Nodup ∧
      (∀ c, c ∈ keys ↔ c ∈ ([⟨"A", "d1", "w1", "c1", "s1", "1", "2"⟩,
        ⟨"A", "d2", "w2", "c2", "s2", "3", "4"⟩,
        ⟨"B", "d3", "w3", "c3", "s3", "5", "6"⟩] : List StockRecord).map
          (fun r => r.county)) ∧
      export_sheets [⟨"A", "d1", "w1", "c1", "s1", "1", "2"⟩,
        ⟨"A", "d2", "w2", "c2", "s2", "3", "4"⟩,
        ⟨"B", "d3", "w3", "c3", "s3", "5", "6"⟩] =
        Except.ok (keys.map (fun k =>
          (truncate31 k, ([⟨"A", "d1", "w1", "c1", "s1", "1", "2"⟩,
            ⟨"A", "d2", "w2", "c2", "s2", "3", "4"⟩,
            ⟨"B", "d3", "w3", "c3", "s3", "5", "6"⟩] : List StockRecord).filter
              (fun r => r.county = k)))) ∧
      (∀ k ∈ keys, (truncate31 k).data.length ≤ 31 ∧
        ([⟨"A", "d1", "w1", "c1", "s1", "1", "2"⟩,
          ⟨"A", "d2", "w2", "c2", "s2", "3", "4"⟩,
          ⟨"B", "d3", "w3", "c3", "s3", "5", "6"⟩] : List StockRecord).filter
            (fun r => r.county = k) ≠ [] ∧
        (([⟨"A", "d1", "w1", "c1", "s1", "1", "2"⟩,
          ⟨"A", "d2", "w2", "c2", "s2", "3", "4"⟩,
          ⟨"B", "d3", "w3", "c3", "s3", "5", "6"⟩] : List StockRecord).filter
            (fun r => r.county = k)).Sublist [⟨"A", "d1", "w1", "c1", "s1", "1", "2"⟩,
          ⟨"A", "d2", "w2", "c2", "s2", "3", "4"⟩,
          ⟨"B", "d3", "w3", "c3", "s3", "5", "6"⟩]) := by
  refine ⟨(c8_bulk_export []).1 rfl, ?_⟩
  exact (c8_bulk_export [⟨"A", "d1", "w1", "c1", "s1", "1", "2"⟩,
    ⟨"A", "d2", "w2", "c2", "s2", "3", "4"⟩,
    ⟨"B", "d3", "w3", "c3", "s3", "5", "6"⟩]).2 (by decide)

/-- C1: `parse_pdf` binds `row` to each element of `page.extract_tables()`,
i.e. to a whole table.  A page holding one table with a single six-cell
row therefore yields no record (the table has one element, failing the
`len(row) >= 6` guard), while a table with six rows yields a single record
whose fields are entire rows — contradicting the documented per-row
extraction. -/
theorem c1_table_loop_confuses_tables_and_rows :
    parse_pdf [[[["1/2/2024", "CARRABASSETT R", "ANSON", "BROOK TROUT", "500", "8"]]]] = [] ∧
    parse_pdf [[[["r1c1", "r1c2"], ["r2c1"], ["r3c1"], ["r4c1"], ["r5c1"], ["r6c1"]]]] =
      [⟨["r1c1", "r1c2"], ["r2c1"], ["r3c1"], ["r4c1"], ["r5c1"], ["r6c1"]⟩] :=
  ⟨rfl, rfl⟩

/-- C6 counterexample: the spec's example table row, extracted as a
single-row table of the page, yields no record at all, so in particular no
record with integer quantity 300 and size 10. -/
theorem c6_counterexample_row_yields_no_record :
    parse_pdf [[[["3/1/2024", "KENNEBEC R", "WATERVILLE", "BROOK TROUT", "300", "10"]]]] = [] :=
  rfl

theorem processLine_digit (cc : Option String) (acc : List StockRecord) (l : String)
    (r : StockRecord) (h : r ∈ processLine cc acc l) :
    r ∈ acc ∨ (r.qty.data ≠ [] ∧ r.qty.data.all isDigitCh = true ∧
      r.size.data ≠ [] ∧ r.size.data.all isDigitCh = true) := by
  cases hm : matchRecordLine l.data with
  | none =>
    simp only [processLine, hm] at h
    exact Or.inl h
  | some tup =>
    obtain ⟨d, w, ct, sp, q, sz⟩ := tup
    cases cc with
    | none =>
      simp only [processLine, hm] at h
      exact Or.inl h
    | some county =>
      by_cases he : county.isEmpty
      · simp only [processLine, hm, he, if_pos] at h
        exact Or.inl h
      · simp only [processLine, hm, he, Bool.false_eq_true, if_neg, not_false_eq_true] at h
        rcases List.mem_append.mp h with h | h
        · exact Or.inl h
        · simp only [List.mem_singleton] at h
          subst h
          exact Or.inr (matchRecordLine_digits hm)

theorem foldl_processLine_digit (cc : Option String) :
    ∀ (lines : List String) (acc : List StockRecord) (r : StockRecord),
      r ∈ lines.foldl (processLine cc) acc →
      r ∈ acc ∨ (r.qty.data ≠ [] ∧ r.qty.data.all isDigitCh = true ∧
        r.size.data ≠ [] ∧ r.size.data.all isDigitCh = true) := by
  intro lines
  induction lines with
  | nil => intro acc r h; exact Or.inl h
  | cons l rest ih =>
    intro acc r h
    rw [List.foldl_cons] at h
    rcases ih (processLine cc acc l) r h with h1 | h1
    · exact processLine_digit cc acc l r h1
    · exact Or.inr h1

theorem foldl_processPage_digit :
    ∀ (pages : List String) (st : Option String × List StockRecord) (r : StockRecord),
      r ∈ (pages.foldl processPage st).2 →
      r ∈ st.2 ∨ (r.qty.data ≠ [] ∧ r.qty.data.all isDigitCh = true ∧
        r.size.data ≠ [] ∧ r.size.data.all isDigitCh = true) := by
  intro pages
  induction pages with
  | nil => intro st r h; exact Or.inl h
  | cons t rest ih =>
    intro st r h
    rw [List.foldl_cons] at h
    rcases ih (processPage st t) r h with h1 | h1
    · exact foldl_processLine_digit _ (pySplitLines t) st.2 r h1
    · exact Or.inr h1

/-- C6 (amended): both strategies keep quantity and size as the verbatim
captured strings, not integers.  In the line strategy they are always
nonempty digit runs (so each denotes a non-negative integer), because the
fifth and sixth captures come from the `\d+` groups of the record-line
pattern. -/
theorem c6_amended_line_strategy_digit_strings (pages : List String) (r : StockRecord)
    (h : r ∈ extract_all_data pages) :
    r.qty.data ≠ [] ∧ r.qty.data.all isDigitCh = true ∧
    r.size.data ≠ [] ∧ r.size.data.all isDigitCh = true := by
  rcases foldl_processPage_digit pages (none, []) r h with h0 | hd
  · exact absurd h0 (List.not_mem_nil r)
  · exact hd

theorem c6_amended_line_strategy_digit_strings_witness :
    (⟨"SOMERSET", "3/1/2024", "KENNEBEC R WATERVILLE", "BROOK", "TROUT", "300", "10"⟩ :
        StockRecord).qty.data.all isDigitCh = true ∧
    (⟨"SOMERSET", "3/1/2024", "KENNEBEC R WATERVILLE", "BROOK", "TROUT", "300", "10"⟩ :
        StockRecord).size.data.all isDigitCh = true := by
  have h := c6_amended_line_strategy_digit_strings
    ["SOMERSET County\n3/1/2024 KENNEBEC R WATERVILLE BROOK TROUT 300 10"]
    ⟨"SOMERSET", "3/1/2024", "KENNEBEC R WATERVILLE", "BROOK", "TROUT", "300", "10"⟩
    (by decide)
  exact ⟨h.2.1, h.2.2.2⟩

/-- A concrete environment in which every proxied fetch fails. -/
def envC7 : Env where
  fetchPdf := fun _ _ => none
  sha256hex := fun _ => ""
  pdfPages := fun _ => []
  deleteOk := true
  putOk := true
  sendOk := fun _ => true

/-- C7 counterexample: with an empty proxy list the handler performs zero
proxied fetch attempts, but it reports no configuration error: it returns
the very same terminal fetch-exhaustion outcome produced when a non-empty
proxy list fails every attempt, and when the expected-hash fetch fails the
run ends on that error first, so nothing about the proxy configuration is
reported immediately. -/
theorem c7_counterexample_no_config_error :
    (lambda_handler envC7 [] (some "ABC")).outcome = Outcome.exhausted ∧
    countFetch (lambda_handler envC7 [] (some "ABC")).events = 0 ∧
    (lambda_handler envC7 ["p1"] (some "ABC")).outcome = Outcome.exhausted ∧
    lambda_handler envC7 [] none = ⟨Outcome.hashFetchError, [], none⟩ := by
  refine ⟨rfl, rfl, ?_, rfl⟩
  decide

/-- C7 (amended): for an empty proxy list the handler performs zero fetch
attempts and, after the expected-hash fetch, falls through the rotation
loop to the generic all-proxies-failed terminal failure; no distinct
configuration error exists. -/
theorem c7_amended_empty_list_falls_through (env : Env) (s0 : String) :
    lambda_handler env [] (some s0) = ⟨Outcome.exhausted, [], some s0⟩ ∧
    lambda_handler env [] none = ⟨Outcome.hashFetchError, [], none⟩ :=
  ⟨rfl, rfl⟩

/-- C10: the three free-text captures are greedy and admit internal
spaces, so on the spec's example line the water capture swallows the
locality column and the remaining two captures split the species name. -/
theorem c10_greedy_field_split :
    matchRecordLine "3/1/2024 KENNEBEC R WATERVILLE BROOK TROUT 300 10".data =
      some ("3/1/2024", "KENNEBEC R WATERVILLE", "BROOK", "TROUT", "300", "10") := by
  decide
